import Mathlib

set_option maxRecDepth 100000
set_option maxHeartbeats 1000000

/-!
Shallow embedding of the png-secret chunk codec (src/chunk_type.rs,
src/chunk.rs, src/png.rs).  Bytes are modelled as `Nat` (a `u8` value is
a `Nat` below 256), byte buffers as `List Nat`, `u32` values as `Nat`
with explicit reduction modulo 2^32 where the machine width matters, and
fallible Rust functions return `Except Err`.
-/

/-- Error kinds.  The repository's `src/result.rs` (the `crate::result`
module) is not among the sources; modelled from the spec: §7 enumerates
the error kinds, and each distinct error site in the sources maps to one
kind as follows.
`tooShort` — "cannot less than 12 bytes" (chunk.rs) and
"wrong length for png file" (png.rs);
`badHeader` — "wrong header" (png.rs);
`invalidType` — "should be all letters !!", "Should consist of 4 letters !!"
(chunk_type.rs) and "invalid chunk type" (chunk.rs);
`lengthMismatch` — "wrong data length" (chunk.rs);
`checksumMismatch` — "crc is wrong" (chunk.rs);
`notFound` — "no chunk with such type" (png.rs). -/
inductive Err where
  | tooShort
  | badHeader
  | invalidType
  | lengthMismatch
  | checksumMismatch
  | notFound
  deriving DecidableEq, Repr

instance {ε α : Type} [DecidableEq ε] [DecidableEq α] : DecidableEq (Except ε α)
  | .error a, .error b => decidable_of_iff (a = b) (by simp)
  | .error _, .ok _ => .isFalse (fun h => by cases h)
  | .ok _, .error _ => .isFalse (fun h => by cases h)
  | .ok a, .ok b => decidable_of_iff (a = b) (by simp)

/-- `ChunkType::is_letter` from src/chunk_type.rs:
`(b > 65 && b < 90) || (b > 97 && b < 122)` — note the strict bounds. -/
def is_letter (b : Nat) : Bool :=
  (decide (b > 65) && decide (b < 90)) || (decide (b > 97) && decide (b < 122))

/-- `ChunkType` from src/chunk_type.rs: a `[u8; 4]`, stored as four
byte fields. -/
structure ChunkType where
  b0 : Nat
  b1 : Nat
  b2 : Nat
  b3 : Nat
  deriving DecidableEq, Repr

/-- `ChunkType::bytes` accessor: the `[u8; 4]` as a list. -/
def ChunkType.bytes (t : ChunkType) : List Nat :=
  [t.b0, t.b1, t.b2, t.b3]

/-- `ChunkType::is_critical`: `bytes[0] >> 5 & 1 == 0`. -/
def ChunkType.is_critical (t : ChunkType) : Bool :=
  (t.b0 >>> 5) &&& 1 == 0

/-- `ChunkType::is_public`: `bytes[1] >> 5 & 1 == 0`. -/
def ChunkType.is_public (t : ChunkType) : Bool :=
  (t.b1 >>> 5) &&& 1 == 0

/-- `ChunkType::is_reserved_bit_valid`: `bytes[2] >> 5 & 1 == 0`. -/
def ChunkType.is_reserved_bit_valid (t : ChunkType) : Bool :=
  (t.b2 >>> 5) &&& 1 == 0

/-- `ChunkType::is_safe_to_copy`: `bytes[3] >> 5 & 1 == 1`. -/
def ChunkType.is_safe_to_copy (t : ChunkType) : Bool :=
  (t.b3 >>> 5) &&& 1 == 1

/-- `ChunkType::is_valid`. -/
def ChunkType.is_valid (t : ChunkType) : Bool :=
  t.is_reserved_bit_valid && !(t.is_critical && t.is_safe_to_copy)

/-- `ChunkType::try_from([u8; 4])`: the array is modelled as a 4-tuple. -/
def ChunkType.try_from (bs : Nat × Nat × Nat × Nat) : Except Err ChunkType :=
  if [bs.1, bs.2.1, bs.2.2.1, bs.2.2.2].all is_letter then
    .ok ⟨bs.1, bs.2.1, bs.2.2.1, bs.2.2.2⟩
  else
    .error .invalidType

/-- `ChunkType::from_str`: the `&str` argument is modelled by its UTF-8
byte list. -/
def ChunkType.from_str (s : List Nat) : Except Err ChunkType :=
  if s.length == 4 && s.all is_letter then
    .ok ⟨s.getD 0 0, s.getD 1 0, s.getD 2 0, s.getD 3 0⟩
  else
    .error .invalidType

/-- The reflected CRC-32/ISO-HDLC polynomial 0xEDB88320, used by the
`crc` crate's `CRC_32_ISO_HDLC` algorithm. -/
def CRC_32_ISO_HDLC_POLY : Nat := 0xEDB88320

/-- One bit step of the reflected CRC-32 computation. -/
def crc_step_bit (c : Nat) : Nat :=
  if c % 2 == 1 then (c / 2) ^^^ CRC_32_ISO_HDLC_POLY else c / 2

/-- One byte step: xor the byte into the low bits, then eight bit steps. -/
def crc_step_byte (c b : Nat) : Nat :=
  crc_step_bit (crc_step_bit (crc_step_bit (crc_step_bit
    (crc_step_bit (crc_step_bit (crc_step_bit (crc_step_bit (c ^^^ (b % 256)))))))))

/-- `crc::Crc::<u32>::new(&crc::CRC_32_ISO_HDLC).checksum(bytes)`: the
standard zlib CRC-32 (init 0xFFFFFFFF, reflected, xorout 0xFFFFFFFF).
Validated below against the checksum values recorded in the repository's
own tests. -/
def checksum (bytes : List Nat) : Nat :=
  (bytes.foldl crc_step_byte 0xFFFFFFFF) ^^^ 0xFFFFFFFF

/-- Byte list of the ASCII string "test data". -/
def testData : List Nat := [116, 101, 115, 116, 32, 100, 97, 116, 97]

example : checksum ([82, 117, 83, 84] ++ testData) = 3202946391 := by decide
example : checksum ([82, 85, 83, 84] ++ testData) = 2799226543 := by decide

/-- `u32::to_be_bytes`. -/
def u32_to_be_bytes (n : Nat) : List Nat :=
  [n / 2 ^ 24 % 256, n / 2 ^ 16 % 256, n / 2 ^ 8 % 256, n % 256]

/-- `u32::from_be_bytes` on a 4-byte slice. -/
def u32_from_be_bytes (l : List Nat) : Nat :=
  l.foldl (fun acc b => acc * 256 + b) 0

/-- Models the `try_into().unwrap()` conversion of a 4-byte slice into a
`[u8; 4]` (as a 4-tuple); the caller guarantees the slice has length 4. -/
def list4 (l : List Nat) : Nat × Nat × Nat × Nat :=
  (l.getD 0 0, l.getD 1 0, l.getD 2 0, l.getD 3 0)

/-- `Chunk` from src/chunk.rs. -/
structure Chunk where
  data_length : Nat
  chunk_type : ChunkType
  data : List Nat
  crc : Nat
  deriving DecidableEq, Repr

/-- `Chunk::new`: `data_length` is `data.len()` (the `u32::try_from`
unwrap requires `data.len() < 2^32`, which theorems carry as a
hypothesis), and the crc is the checksum of type bytes followed by the
payload. -/
def Chunk.new (chunk_type : ChunkType) (data : List Nat) : Chunk :=
  { data_length := data.length
    chunk_type := chunk_type
    data := data
    crc := checksum (chunk_type.bytes ++ data) }

/-- `Chunk::as_bytes`: length (big-endian) ++ type ++ payload ++ crc
(big-endian). -/
def Chunk.as_bytes (c : Chunk) : List Nat :=
  u32_to_be_bytes c.data_length ++ c.chunk_type.bytes ++ c.data
    ++ u32_to_be_bytes c.crc

/-- `Chunk::try_from(&[u8])` from src/chunk.rs. -/
def Chunk.try_from (bytes : List Nat) : Except Err Chunk :=
  let length := bytes.length
  if length < 12 then
    .error .tooShort
  else
    let data_length := u32_from_be_bytes (bytes.take 4)
    match ChunkType.try_from (list4 ((bytes.drop 4).take 4)) with
    | .error e => .error e
    | .ok chunk_type =>
      if !chunk_type.is_valid then
        .error .invalidType
      else
        let data := (bytes.drop 8).take (length - 4 - 8)
        if data_length ≠ data.length then
          .error .lengthMismatch
        else
          let crc := u32_from_be_bytes (bytes.drop (length - 4))
          let computed_crc := checksum ((bytes.drop 4).take (length - 4 - 4))
          if crc ≠ computed_crc then
            .error .checksumMismatch
          else
            .ok { data_length := data_length, chunk_type := chunk_type
                  data := data, crc := crc }

/-- `Png` from src/png.rs. -/
structure Png where
  chunks : List Chunk
  deriving DecidableEq, Repr

/-- `Png::STANDARD_HEADER`. -/
def STANDARD_HEADER : List Nat := [137, 80, 78, 71, 13, 10, 26, 10]

/-- `Png::from_chunks`. -/
def Png.from_chunks (chunks : List Chunk) : Png :=
  { chunks := chunks }

/-- `Png::as_bytes`: the header followed by every chunk's encoding. -/
def Png.as_bytes (p : Png) : List Nat :=
  STANDARD_HEADER ++ (p.chunks.map Chunk.as_bytes).flatten

/-- `Iterator::position`: index of the first element satisfying the
predicate. -/
def position (p : α → Bool) : List α → Option Nat
  | [] => none
  | a :: l => if p a then some 0 else (position p l).map (· + 1)

/-- `Png::remove_chunk(&mut self, chunk_type)`: the `&mut self` is made
explicit, so the result pairs the returned `Result<Chunk>` with the
container state after the call (unchanged when the lookup fails).  The
`chunk.chunk_type().to_string() == chunk_type` comparison is byte-list
equality of the type text. -/
def Png.remove_chunk (p : Png) (chunk_type : List Nat) : Except Err Chunk × Png :=
  match position (fun chunk => chunk.chunk_type.bytes == chunk_type) p.chunks with
  | none => (.error .notFound, p)
  | some index =>
      (.ok (p.chunks.getD index (Chunk.new ⟨0, 0, 0, 0⟩ [])),
       { chunks := p.chunks.eraseIdx index })

/-- The chunk-parsing loop of `Png::try_from` (png.rs lines 66-88),
with the loop turned into recursion on the offset `next_index`. -/
def parseChunks (bytes : List Nat) (next_index : Nat) : Except Err (List Chunk) :=
  if _h : next_index < bytes.length then
    if next_index + 4 > bytes.length then
      .error .tooShort
    else
      let data_length := u32_from_be_bytes ((bytes.drop next_index).take 4)
      if next_index + 12 + data_length > bytes.length then
        .error .tooShort
      else
        match Chunk.try_from ((bytes.drop next_index).take (12 + data_length)) with
        | .error e => .error e
        | .ok chunk =>
          match parseChunks bytes (next_index + 12 + data_length) with
          | .error e => .error e
          | .ok rest => .ok (chunk :: rest)
  else
    .ok []
termination_by bytes.length - next_index
decreasing_by omega

/-- `Png::try_from(&[u8])` from src/png.rs. -/
def Png.try_from (bytes : List Nat) : Except Err Png :=
  if bytes.length < 8 then
    .error .tooShort
  else if bytes.take 8 ≠ STANDARD_HEADER then
    .error .badHeader
  else
    match parseChunks bytes 8 with
    | .error e => .error e
    | .ok chunks => .ok { chunks := chunks }

/-- One UTF-8 codepoint step. -/
def utf8Step : List Nat → Option (List Nat)
  | [] => none
  | b :: rest =>
    if b ≤ 0x7F then some rest
    else if 0xC2 ≤ b ∧ b ≤ 0xDF then
      match rest with
      | c1 :: r => if 0x80 ≤ c1 ∧ c1 ≤ 0xBF then some r else none
      | [] => none
    else if b = 0xE0 then
      match rest with
      | c1 :: c2 :: r =>
          if (0xA0 ≤ c1 ∧ c1 ≤ 0xBF) ∧ (0x80 ≤ c2 ∧ c2 ≤ 0xBF) then some r
          else none
      | _ => none
    else if (0xE1 ≤ b ∧ b ≤ 0xEC) ∨ b = 0xEE ∨ b = 0xEF then
      match rest with
      | c1 :: c2 :: r =>
          if (0x80 ≤ c1 ∧ c1 ≤ 0xBF) ∧ (0x80 ≤ c2 ∧ c2 ≤ 0xBF) then some r
          else none
      | _ => none
    else if b = 0xED then
      match rest with
      | c1 :: c2 :: r =>
          if (0x80 ≤ c1 ∧ c1 ≤ 0x9F) ∧ (0x80 ≤ c2 ∧ c2 ≤ 0xBF) then some r
          else none
      | _ => none
    else if b = 0xF0 then
      match rest with
      | c1 :: c2 :: c3 :: r =>
          if (0x90 ≤ c1 ∧ c1 ≤ 0xBF) ∧ (0x80 ≤ c2 ∧ c2 ≤ 0xBF)
              ∧ (0x80 ≤ c3 ∧ c3 ≤ 0xBF) then some r
          else none
      | _ => none
    else if 0xF1 ≤ b ∧ b ≤ 0xF3 then
      match rest with
      | c1 :: c2 :: c3 :: r =>
          if (0x80 ≤ c1 ∧ c1 ≤ 0xBF) ∧ (0x80 ≤ c2 ∧ c2 ≤ 0xBF)
              ∧ (0x80 ≤ c3 ∧ c3 ≤ 0xBF) then some r
          else none
      | _ => none
    else if b = 0xF4 then
      match rest with
      | c1 :: c2 :: c3 :: r =>
          if (0x80 ≤ c1 ∧ c1 ≤ 0x8F) ∧ (0x80 ≤ c2 ∧ c2 ≤ 0xBF)
              ∧ (0x80 ≤ c3 ∧ c3 ≤ 0xBF) then some r
          else none
      | _ => none
    else none

lemma utf8Step_length {l r : List Nat} (h : utf8Step l = some r) :
    r.length < l.length := by
  cases l with
  | nil => simp [utf8Step] at h
  | cons b rest =>
    simp only [utf8Step] at h
    repeat' split at h
    all_goals simp_all
    all_goals omega

lemma utf8Step_ascii {b : Nat} (rest : List Nat) (hb : b ≤ 127) :
    utf8Step (b :: rest) = some rest := by
  simp only [utf8Step]
  rw [if_pos (by omega : b ≤ 0x7F)]

/-- UTF-8 validity of a byte list. -/
def utf8Valid (l : List Nat) : Bool :=
  match h : utf8Step l with
  | some rest => utf8Valid rest
  | none => l.isEmpty
termination_by l.length
decreasing_by exact utf8Step_length h

/-- `std::str::from_utf8`: succeeds exactly on valid UTF-8. -/
def from_utf8 (l : List Nat) : Option (List Nat) :=
  if utf8Valid l then some l else none

example :
    Chunk.try_from
        (u32_to_be_bytes 9 ++ [82, 117, 83, 84] ++ testData
          ++ u32_to_be_bytes 3202946391)
      = .ok { data_length := 9, chunk_type := ⟨82, 117, 83, 84⟩
              data := testData, crc := 3202946391 } := by decide

/-- The record invariant that `Chunk::new` establishes and
`Chunk::try_from` verifies: all-letter type bytes, a valid type, a
declared length equal to the payload length and within `u32` range, and
a checksum over type bytes followed by payload. -/
def Chunk.wf (c : Chunk) : Bool :=
  c.chunk_type.bytes.all is_letter && c.chunk_type.is_valid
    && (c.data_length == c.data.length) && decide (c.data_length < 2 ^ 32)
    && (c.crc == checksum (c.chunk_type.bytes ++ c.data))

lemma take_add_split (l : List α) (a b : Nat) :
    l.take (a + b) = l.take a ++ (l.drop a).take b := by
  induction a generalizing l with
  | zero => simp
  | succ n ih =>
    cases l with
    | nil => simp
    | cons x xs => simpa [Nat.succ_add, List.take, List.drop] using ih xs

lemma length_u32_to_be_bytes (n : Nat) : (u32_to_be_bytes n).length = 4 := rfl

lemma u32_from_be_to_be (n : Nat) (h : n < 2 ^ 32) :
    u32_from_be_bytes (u32_to_be_bytes n) = n := by
  simp only [u32_to_be_bytes, u32_from_be_bytes, List.foldl]
  omega

lemma u32_from_be_lt {l : List Nat} (hlen : l.length = 4)
    (hb : ∀ b ∈ l, b < 256) : u32_from_be_bytes l < 2 ^ 32 := by
  match l, hlen with
  | [a, b, c, d], _ =>
    simp only [u32_from_be_bytes, List.foldl]
    have ha := hb a (by simp)
    have hbb := hb b (by simp)
    have hc := hb c (by simp)
    have hd := hb d (by simp)
    omega

lemma crc_step_bit_lt {c : Nat} (h : c < 2 ^ 32) : crc_step_bit c < 2 ^ 32 := by
  unfold crc_step_bit
  split
  · exact Nat.xor_lt_two_pow (by omega) (by norm_num [CRC_32_ISO_HDLC_POLY])
  · omega

lemma crc_step_byte_lt {c : Nat} (b : Nat) (h : c < 2 ^ 32) :
    crc_step_byte c b < 2 ^ 32 := by
  unfold crc_step_byte
  have h0 : c ^^^ (b % 256) < 2 ^ 32 :=
    Nat.xor_lt_two_pow h (by have := Nat.mod_lt b (y := 256) (by norm_num); omega)
  exact crc_step_bit_lt (crc_step_bit_lt (crc_step_bit_lt (crc_step_bit_lt
    (crc_step_bit_lt (crc_step_bit_lt (crc_step_bit_lt (crc_step_bit_lt h0)))))))

lemma checksum_lt (l : List Nat) : checksum l < 2 ^ 32 := by
  unfold checksum
  have hfold : ∀ (xs : List Nat) (acc : Nat), acc < 2 ^ 32 →
      xs.foldl crc_step_byte acc < 2 ^ 32 := by
    intro xs
    induction xs with
    | nil => intro acc h; simpa using h
    | cons x rest ih => intro acc h; exact ih _ (crc_step_byte_lt x h)
  exact Nat.xor_lt_two_pow (hfold l 0xFFFFFFFF (by norm_num)) (by norm_num)

lemma exists_four {l : List Nat} (h : l.length = 4) :
    ∃ a b c d, l = [a, b, c, d] := by
  match l, h with
  | [a, b, c, d], _ => exact ⟨a, b, c, d, rfl⟩

lemma ChunkType.bytes_mk (a b c d : Nat) :
    (ChunkType.mk a b c d).bytes = [a, b, c, d] := rfl

lemma length_chunk_type_bytes (t : ChunkType) : t.bytes.length = 4 := rfl

lemma length_as_bytes (c : Chunk) : c.as_bytes.length = 12 + c.data.length := by
  simp [Chunk.as_bytes, u32_to_be_bytes, ChunkType.bytes]
  omega

lemma frame_slices {L T D C : List Nat} (hL : L.length = 4) (hT : T.length = 4)
    (hC : C.length = 4) :
    (L ++ (T ++ (D ++ C))).length = 12 + D.length ∧
    (L ++ (T ++ (D ++ C))).take 4 = L ∧
    ((L ++ (T ++ (D ++ C))).drop 4).take 4 = T ∧
    ((L ++ (T ++ (D ++ C))).drop 8).take ((L ++ (T ++ (D ++ C))).length - 4 - 8) = D ∧
    (L ++ (T ++ (D ++ C))).drop ((L ++ (T ++ (D ++ C))).length - 4) = C ∧
    ((L ++ (T ++ (D ++ C))).drop 4).take ((L ++ (T ++ (D ++ C))).length - 4 - 4) = T ++ D := by
  have hlen : (L ++ (T ++ (D ++ C))).length = 12 + D.length := by
    simp [hL, hT, hC]; omega
  have hd4 : (L ++ (T ++ (D ++ C))).drop 4 = T ++ (D ++ C) := List.drop_left' hL
  refine ⟨hlen, List.take_left' hL, ?_, ?_, ?_, ?_⟩
  · rw [hd4]; exact List.take_left' hT
  · have hd8 : (L ++ (T ++ (D ++ C))).drop 8 = D ++ C := by
      have : (8 : Nat) = 4 + 4 := rfl
      rw [this, ← List.drop_drop, hd4, List.drop_left' hT]
    rw [hd8, hlen]
    have : 12 + D.length - 4 - 8 = D.length := by omega
    rw [this]
    exact List.take_left' rfl
  · have hassoc : L ++ (T ++ (D ++ C)) = (L ++ (T ++ D)) ++ C := by
      simp [List.append_assoc]
    rw [hassoc]
    apply List.drop_left'
    simp [hL, hT, hC]
    omega
  · rw [hd4, hlen]
    have h1 : T ++ (D ++ C) = (T ++ D) ++ C := by simp [List.append_assoc]
    have h2 : 12 + D.length - 4 - 4 = (T ++ D).length := by simp [hT]; omega
    rw [h1, h2]
    exact List.take_left' rfl

lemma Chunk.try_from_frame (dl crc : Nat) (t : ChunkType) (D : List Nat) :
    Chunk.try_from (u32_to_be_bytes dl ++ (t.bytes ++ (D ++ u32_to_be_bytes crc)))
      = if !(t.bytes.all is_letter) then .error .invalidType
        else if !t.is_valid then .error .invalidType
        else if u32_from_be_bytes (u32_to_be_bytes dl) ≠ D.length then
          .error .lengthMismatch
        else if u32_from_be_bytes (u32_to_be_bytes crc)
            ≠ checksum (t.bytes ++ D) then .error .checksumMismatch
        else .ok ⟨u32_from_be_bytes (u32_to_be_bytes dl), t, D,
                  u32_from_be_bytes (u32_to_be_bytes crc)⟩ := by
  obtain ⟨hlen, ht4, hs4, hdata, hcrcb, hck⟩ :=
    frame_slices (L := u32_to_be_bytes dl) (T := t.bytes) (D := D)
      (C := u32_to_be_bytes crc) (length_u32_to_be_bytes dl)
      (length_chunk_type_bytes t) (length_u32_to_be_bytes crc)
  obtain ⟨t0, t1, t2, t3⟩ := t
  simp only [ChunkType.bytes] at *
  rw [hlen] at hdata hcrcb hck
  simp only [Chunk.try_from, hlen, ht4, hs4, hdata, hcrcb, hck]
  have h12 : ¬ (12 + D.length < 12) := by omega
  rw [if_neg h12]
  simp only [list4, List.getD, ChunkType.try_from, List.getElem?_cons_zero,
    List.getElem?_cons_succ, Option.getD_some]
  by_cases hletter : [t0, t1, t2, t3].all is_letter
  · by_cases hval : (ChunkType.mk t0 t1 t2 t3).is_valid
    · by_cases hdl : u32_from_be_bytes (u32_to_be_bytes dl) = D.length
      · by_cases hcrceq :
            u32_from_be_bytes (u32_to_be_bytes crc) = checksum ([t0, t1, t2, t3] ++ D)
        · simp [hletter, hval, hdl, hcrceq]
        · simp [hletter, hval, hdl, hcrceq]
      · simp [hletter, hval, hdl]
    · simp [hletter, hval]
  · simp [hletter]

lemma as_bytes_assoc (c : Chunk) :
    c.as_bytes = u32_to_be_bytes c.data_length
      ++ (c.chunk_type.bytes ++ (c.data ++ u32_to_be_bytes c.crc)) := by
  simp [Chunk.as_bytes, List.append_assoc]

lemma Chunk.wf_spec {c : Chunk} (h : c.wf = true) :
    c.chunk_type.bytes.all is_letter = true ∧ c.chunk_type.is_valid = true ∧
    c.data_length = c.data.length ∧ c.data_length < 2 ^ 32 ∧
    c.crc = checksum (c.chunk_type.bytes ++ c.data) := by
  simp only [Chunk.wf, Bool.and_eq_true, beq_iff_eq, decide_eq_true_eq] at h
  tauto

lemma Chunk.try_from_wf {c : Chunk} (h : c.wf = true) :
    Chunk.try_from c.as_bytes = .ok c := by
  obtain ⟨hletter, hval, hlen, h32, hcrc⟩ := Chunk.wf_spec h
  have hcrc32 : c.crc < 2 ^ 32 := by rw [hcrc]; exact checksum_lt _
  rw [as_bytes_assoc, Chunk.try_from_frame, u32_from_be_to_be _ h32,
    u32_from_be_to_be _ hcrc32]
  simp [hletter, hval, ← hlen, ← hcrc]

lemma Chunk.try_from_ok_inv {bytes : List Nat} {c : Chunk}
    (h : Chunk.try_from bytes = .ok c) :
    12 ≤ bytes.length ∧
    c.data_length = u32_from_be_bytes (bytes.take 4) ∧
    c.chunk_type.bytes = (bytes.drop 4).take 4 ∧
    c.chunk_type.bytes.all is_letter = true ∧
    c.chunk_type.is_valid = true ∧
    c.data = (bytes.drop 8).take (bytes.length - 4 - 8) ∧
    c.data_length = c.data.length ∧
    c.crc = checksum ((bytes.drop 4).take (bytes.length - 4 - 4)) := by
  simp only [Chunk.try_from] at h
  split at h
  · exact absurd h (by simp)
  · rename_i h12
    split at h
    · exact absurd h (by simp)
    · rename_i ct heq
      have h12' : 12 ≤ bytes.length := by omega
      have hst : ((bytes.drop 4).take 4).length = 4 := by
        simp; omega
      obtain ⟨a, b, cc, d, habcd⟩ := exists_four hst
      rw [habcd] at heq
      simp only [ChunkType.try_from, list4, List.getD, List.getElem?_cons_zero,
        List.getElem?_cons_succ, Option.getD_some] at heq
      split at heq
      · rename_i hletters
        have hct : ct = ChunkType.mk a b cc d := by
          injection heq with h1
          exact h1.symm
        split at h
        · exact absurd h (by simp)
        · rename_i hvalid
          split at h
          · exact absurd h (by simp)
          · rename_i hdl
            split at h
            · exact absurd h (by simp)
            · rename_i hcq
              injection h with hcEq
              subst hcEq
              refine ⟨h12', rfl, ?_, ?_, ?_, rfl, ?_, ?_⟩
              · rw [hct, ChunkType.bytes_mk, habcd]
              · rw [hct, ChunkType.bytes_mk]
                simpa using hletters
              · simpa using hvalid
              · exact not_ne_iff.mp hdl
              · exact not_ne_iff.mp hcq
      · exact absurd heq (by simp)

lemma Chunk.try_from_ok_wf {bytes : List Nat} {c : Chunk}
    (hb : ∀ b ∈ bytes, b < 256) (h : Chunk.try_from bytes = .ok c) :
    c.wf = true := by
  obtain ⟨h12, hdl, hty, hlet, hval, hdata, hlen, hcrc⟩ := Chunk.try_from_ok_inv h
  have htake : (bytes.take 4).length = 4 := by simp; omega
  have h32 : c.data_length < 2 ^ 32 := by
    rw [hdl]
    exact u32_from_be_lt htake (fun b hbmem => hb b (List.mem_of_mem_take hbmem))
  have hsplit : (bytes.drop 4).take (bytes.length - 4 - 4)
      = (bytes.drop 4).take 4 ++ (bytes.drop 8).take (bytes.length - 4 - 8) := by
    have hnum : bytes.length - 4 - 4 = 4 + (bytes.length - 4 - 8) := by omega
    rw [hnum, take_add_split, List.drop_drop]
  simp only [Chunk.wf, Bool.and_eq_true, beq_iff_eq, decide_eq_true_eq]
  refine ⟨⟨⟨⟨hlet, hval⟩, hlen⟩, h32⟩, ?_⟩
  rw [hcrc, hsplit, ← hty, ← hdata]

/-- Concrete record frame from the repository's own test
`ok_try_fron_valid_bytes`: declared length 9, type "RuST", payload
"test data", checksum 3202946391. -/
def test_frame : List Nat :=
  u32_to_be_bytes 9 ++ [82, 117, 83, 84] ++ testData ++ u32_to_be_bytes 3202946391

/-- The record that `test_frame` decodes to. -/
def test_chunk : Chunk :=
  { data_length := 9, chunk_type := ⟨82, 117, 83, 84⟩
    data := testData, crc := 3202946391 }

/-- C1: the claim states that `ChunkType::try_from` and
`ChunkType::from_str` accept exactly the inclusive ASCII-letter ranges
`[0x41,0x5A]` and `[0x61,0x7A]`, boundary bytes included.  The code's
`is_letter` uses strict bounds (`b > 65 && b < 90`, `b > 97 && b < 122`),
so the boundary letters `A` (65), `Z` (90), `a` (97) and `z` (122) are
rejected: construction from the all-letter inputs "AAAA" and "ABCZ"
fails, contradicting the claim. -/
theorem c1_boundary_letters_rejected :
    is_letter 65 = false ∧ is_letter 90 = false ∧ is_letter 97 = false ∧
    is_letter 122 = false ∧ is_letter 66 = true ∧
    ChunkType.try_from (65, 65, 65, 65) = .error .invalidType ∧
    ChunkType.from_str [65, 66, 67, 90] = .error .invalidType := by decide

/-- C2: for every `ChunkType`, `is_valid()` equals
`is_reserved_bit_valid() && !(is_critical() && is_safe_to_copy())`, and
each flag predicate reads bit 5 (value 0x20) of its byte: critical and
public and reserved-valid hold when the bit is clear in bytes 0, 1, 2
respectively, and safe-to-copy holds when the bit is set in byte 3. -/
theorem c2_validity_predicate (t : ChunkType) :
    t.is_valid
        = (t.is_reserved_bit_valid && !(t.is_critical && t.is_safe_to_copy)) ∧
    t.is_critical = !t.b0.testBit 5 ∧
    t.is_public = !t.b1.testBit 5 ∧
    t.is_reserved_bit_valid = !t.b2.testBit 5 ∧
    t.is_safe_to_copy = t.b3.testBit 5 := by
  refine ⟨rfl, ?_, ?_, ?_, ?_⟩ <;>
    simp [ChunkType.is_critical, ChunkType.is_public,
      ChunkType.is_reserved_bit_valid, ChunkType.is_safe_to_copy,
      Nat.testBit, Nat.one_and_eq_mod_two, Nat.and_one_is_mod, bne]
  rcases Nat.mod_two_eq_zero_or_one (t.b3 >>> 5) with h | h <;> simp [h]

/-- C3: the checksum of a record is the CRC-32/ISO-HDLC of the type's 4
bytes followed by the payload (never the declared length), both as
computed by `Chunk::new` and as verified by a successful
`Chunk::try_from`; concretely, type "RuST" with payload "test data"
has checksum 3202946391. -/
theorem c3_checksum_over_type_and_payload :
    (∀ (t : ChunkType) (data : List Nat),
        (Chunk.new t data).crc = checksum (t.bytes ++ data)) ∧
    (∀ (bytes : List Nat) (c : Chunk), Chunk.try_from bytes = .ok c →
        c.crc = checksum (c.chunk_type.bytes ++ c.data)) ∧
    (Chunk.new ⟨82, 117, 83, 84⟩ testData).crc = 3202946391 := by
  refine ⟨fun t data => rfl, ?_, by decide⟩
  intro bytes c h
  obtain ⟨h12, hdl, hty, hlet, hval, hdata, hlen, hcrc⟩ := Chunk.try_from_ok_inv h
  have hsplit : (bytes.drop 4).take (bytes.length - 4 - 4)
      = (bytes.drop 4).take 4 ++ (bytes.drop 8).take (bytes.length - 4 - 8) := by
    have hnum : bytes.length - 4 - 4 = 4 + (bytes.length - 4 - 8) := by omega
    rw [hnum, take_add_split, List.drop_drop]
  rw [hcrc, hsplit, ← hty, ← hdata]

/-- C3 witness: the frame from the repository's test decodes, and the
decoded record's checksum is the CRC-32 of its type bytes and payload. -/
theorem c3_checksum_witness :
    Chunk.try_from test_frame = .ok test_chunk ∧
    test_chunk.crc = checksum (test_chunk.chunk_type.bytes ++ test_chunk.data) :=
  ⟨by decide,
   c3_checksum_over_type_and_payload.2.1 test_frame test_chunk (by decide)⟩

/-- C4 counterexample: the claim promises the round trip for every
record produced by `Chunk::new`, but `Chunk::new` also accepts types
whose `is_valid()` is false.  For the all-lowercase type "rust"
(reserved bit invalid) the encoding of `Chunk::new`'s record is
rejected by `Chunk::try_from` with an InvalidType error. -/
theorem c4_round_trip_counterexample :
    Chunk.try_from (Chunk.new ⟨114, 117, 115, 116⟩ []).as_bytes
      = .error .invalidType := by decide

/-- C4 (amended): the encode/decode round trip holds for every record
produced by `Chunk::new` on a letter-typed, `is_valid()` type and a
payload short enough for the `u32` length (as `Chunk::new`'s unwrap
requires), and for every record produced by a successful
`Chunk::try_from` on a byte buffer. -/
theorem c4_round_trip :
    (∀ (t : ChunkType) (data : List Nat),
        t.bytes.all is_letter = true → t.is_valid = true →
        data.length < 2 ^ 32 →
        Chunk.try_from (Chunk.new t data).as_bytes = .ok (Chunk.new t data)) ∧
    (∀ (bytes : List Nat) (c : Chunk), (∀ b ∈ bytes, b < 256) →
        Chunk.try_from bytes = .ok c →
        Chunk.try_from c.as_bytes = .ok c) := by
  constructor
  · intro t data hlet hval h32
    apply Chunk.try_from_wf
    simp [Chunk.wf, Chunk.new, hlet, hval]
    omega
  · intro bytes c hb h
    exact Chunk.try_from_wf (Chunk.try_from_ok_wf hb h)

/-- C4 witness: the round trip at the type "RuST" and payload
"test data". -/
theorem c4_round_trip_witness :
    Chunk.try_from (Chunk.new ⟨82, 117, 83, 84⟩ testData).as_bytes
      = .ok (Chunk.new ⟨82, 117, 83, 84⟩ testData) :=
  c4_round_trip.1 ⟨82, 117, 83, 84⟩ testData (by decide) (by decide) (by decide)

/-- C6: a `ChunkType` that passes the letter check but fails
`is_valid()` can still be constructed directly by `ChunkType::from_str`
and `ChunkType::try_from` (construction checks only letter-ness), yet
any record framed with it is rejected by `Chunk::try_from` with an
InvalidType error. -/
theorem c6_invalid_type_constructible_but_rejected (t : ChunkType)
    (hlet : t.bytes.all is_letter = true) (hval : t.is_valid = false) :
    ChunkType.from_str t.bytes = .ok t ∧
    ChunkType.try_from (t.b0, t.b1, t.b2, t.b3) = .ok t ∧
    ∀ data : List Nat,
      Chunk.try_from (Chunk.new t data).as_bytes = .error .invalidType := by
  refine ⟨?_, ?_, ?_⟩
  · obtain ⟨t0, t1, t2, t3⟩ := t
    simp only [ChunkType.bytes] at hlet ⊢
    simp [ChunkType.from_str, hlet]
  · obtain ⟨t0, t1, t2, t3⟩ := t
    simp only [ChunkType.bytes] at hlet
    simp [ChunkType.try_from, hlet]
  · intro data
    rw [as_bytes_assoc, Chunk.try_from_frame]
    simp [Chunk.new, hlet, hval]

/-- C6 witness: the all-lowercase type "rust" (invalid reserved bit) is
constructible from text and from bytes, yet its framed record is
rejected. -/
theorem c6_witness :
    ChunkType.from_str [114, 117, 115, 116] = .ok ⟨114, 117, 115, 116⟩ ∧
    ChunkType.try_from (114, 117, 115, 116) = .ok ⟨114, 117, 115, 116⟩ ∧
    Chunk.try_from (Chunk.new ⟨114, 117, 115, 116⟩ testData).as_bytes
      = .error .invalidType := by
  obtain ⟨h1, h2, h3⟩ :=
    c6_invalid_type_constructible_but_rejected ⟨114, 117, 115, 116⟩
      (by decide) (by decide)
  exact ⟨h1, h2, h3 testData⟩

/-- C7: every buffer of fewer than 8 bytes fails `Png::try_from` with a
TooShort error, and every buffer of fewer than 12 bytes fails
`Chunk::try_from` with a TooShort error. -/
theorem c7_too_short (bytes : List Nat) :
    (bytes.length < 8 → Png.try_from bytes = .error .tooShort) ∧
    (bytes.length < 12 → Chunk.try_from bytes = .error .tooShort) := by
  constructor
  · intro h
    unfold Png.try_from
    rw [if_pos h]
  · intro h
    simp only [Chunk.try_from]
    rw [if_pos h]

/-- C7 witness: the empty buffer and a 3-byte buffer. -/
theorem c7_witness :
    Png.try_from [] = .error .tooShort ∧
    Chunk.try_from [0, 1, 2] = .error .tooShort :=
  ⟨(c7_too_short []).1 (by decide), (c7_too_short [0, 1, 2]).2 (by decide)⟩

lemma position_eq_none {α : Type} {p : α → Bool} {l : List α}
    (h : ∀ a ∈ l, p a = false) : position p l = none := by
  induction l with
  | nil => rfl
  | cons a rest ih =>
    have ha : p a = false := h a (List.mem_cons_self a rest)
    have hrest : position p rest = none :=
      ih (fun b hb => h b (List.mem_cons_of_mem a hb))
    simp [position, ha, hrest]

lemma position_first {α : Type} {p : α → Bool} (pre : List α) (x : α)
    (post : List α) (hpre : ∀ a ∈ pre, p a = false) (hx : p x = true) :
    position p (pre ++ x :: post) = some pre.length := by
  induction pre with
  | nil => simp [position, hx]
  | cons a rest ih =>
    have ha : p a = false := hpre a (List.mem_cons_self a rest)
    have hrest := ih (fun b hb => hpre b (List.mem_cons_of_mem a hb))
    simp [position, ha, hrest]

lemma getD_append_first {α : Type} (pre : List α) (x : α) (post : List α)
    (d : α) : (pre ++ x :: post).getD pre.length d = x := by
  induction pre with
  | nil => rfl
  | cons a rest ih => simpa using ih

lemma eraseIdx_append_first {α : Type} (pre : List α) (x : α) (post : List α) :
    (pre ++ x :: post).eraseIdx pre.length = pre ++ post := by
  induction pre with
  | nil => simp
  | cons a rest ih => simp [List.eraseIdx, ih]

/-- C8: removing a type text with no matching record fails with a
NotFound error and leaves the container unchanged; when a match exists,
`remove_chunk` removes and returns the first record whose type text
matches, keeping every other record in its original relative order. -/
theorem c8_remove_chunk (p : Png) (t : List Nat) :
    ((∀ c ∈ p.chunks, c.chunk_type.bytes ≠ t) →
        p.remove_chunk t = (.error .notFound, p)) ∧
    (∀ (pre : List Chunk) (c : Chunk) (post : List Chunk),
        p.chunks = pre ++ c :: post →
        (∀ c' ∈ pre, c'.chunk_type.bytes ≠ t) →
        c.chunk_type.bytes = t →
        p.remove_chunk t = (.ok c, Png.from_chunks (pre ++ post))) := by
  constructor
  · intro h
    unfold Png.remove_chunk
    rw [position_eq_none (fun c hc => by simp [h c hc])]
  · intro pre c post hchunks hpre hc
    unfold Png.remove_chunk
    rw [hchunks, position_first pre c post (fun a ha => by simp [hpre a ha])
      (by simp [hc])]
    simp only [getD_append_first, eraseIdx_append_first]
    rfl

/-- C8 witness: a one-record container; removal of an absent type fails
and removal of the present type returns the record. -/
theorem c8_witness :
    (Png.from_chunks [test_chunk]).remove_chunk [0]
        = (.error .notFound, Png.from_chunks [test_chunk]) ∧
    (Png.from_chunks [test_chunk]).remove_chunk [82, 117, 83, 84]
        = (.ok test_chunk, Png.from_chunks []) :=
  ⟨(c8_remove_chunk (Png.from_chunks [test_chunk]) [0]).1 (by decide),
   (c8_remove_chunk (Png.from_chunks [test_chunk]) [82, 117, 83, 84]).2
     [] test_chunk [] rfl (by decide) (by decide)⟩

lemma utf8Valid_of_ascii {l : List Nat} (h : ∀ b ∈ l, b ≤ 127) :
    utf8Valid l = true := by
  induction l with
  | nil =>
    rw [utf8Valid.eq_def]
    simp [utf8Step]
  | cons b rest ih =>
    have hb : b ≤ 127 := h b (List.mem_cons_self b rest)
    have ih' := ih (fun x hx => h x (List.mem_cons_of_mem b hx))
    rw [utf8Valid.eq_def, utf8Step_ascii rest hb]
    exact ih'

/-- C10: every `ChunkType` reachable through the public constructors
(`try_from` on 4 bytes, `from_str`) has only ASCII-letter bytes, so the
UTF-8 reinterpretation inside the Display implementation (the
`from_utf8` unwrap) always succeeds — the panic branch is unreachable. -/
theorem c10_reachable_types_are_ascii (t : ChunkType)
    (h : (∃ bs, ChunkType.try_from bs = .ok t)
        ∨ (∃ s, ChunkType.from_str s = .ok t)) :
    t.bytes.all is_letter = true ∧ from_utf8 t.bytes = some t.bytes := by
  have hlet : t.bytes.all is_letter = true := by
    rcases h with ⟨bs, hbs⟩ | ⟨s, hs⟩
    · simp only [ChunkType.try_from] at hbs
      split at hbs
      · rename_i hcond
        injection hbs with h1
        rw [← h1, ChunkType.bytes_mk]
        exact hcond
      · exact absurd hbs (by simp)
    · simp only [ChunkType.from_str] at hs
      split at hs
      · rename_i hcond
        simp only [Bool.and_eq_true, beq_iff_eq] at hcond
        obtain ⟨hlen4, hall⟩ := hcond
        obtain ⟨a, b, c, d, rfl⟩ := exists_four hlen4
        injection hs with h1
        rw [← h1]
        simpa [ChunkType.bytes_mk] using hall
      · exact absurd hs (by simp)
  refine ⟨hlet, ?_⟩
  have hascii : ∀ b ∈ t.bytes, b ≤ 127 := by
    intro b hb
    have hl := (List.all_eq_true.mp hlet) b hb
    simp [is_letter] at hl
    omega
  unfold from_utf8
  rw [if_pos (utf8Valid_of_ascii hascii)]

/-- C10 witness: the type "RuST" built by `try_from`. -/
theorem c10_witness :
    (ChunkType.mk 82 117 83 84).bytes.all is_letter = true ∧
    from_utf8 (ChunkType.mk 82 117 83 84).bytes
      = some (ChunkType.mk 82 117 83 84).bytes :=
  c10_reachable_types_are_ascii ⟨82, 117, 83, 84⟩
    (.inl ⟨(82, 117, 83, 84), by decide⟩)

lemma parseChunks_end {bytes : List Nat} {i : Nat} (h : bytes.length ≤ i) :
    parseChunks bytes i = .ok [] := by
  rw [parseChunks.eq_def, dif_neg (by omega)]

lemma parseChunks_short1 {bytes : List Nat} {i : Nat} (h1 : i < bytes.length)
    (h2 : bytes.length < i + 4) : parseChunks bytes i = .error .tooShort := by
  rw [parseChunks.eq_def, dif_pos h1, if_pos (by omega)]

lemma parseChunks_short2 {bytes : List Nat} {i : Nat} (h1 : i < bytes.length)
    (h2 : i + 4 ≤ bytes.length)
    (h3 : bytes.length < i + 12 + u32_from_be_bytes ((bytes.drop i).take 4)) :
    parseChunks bytes i = .error .tooShort := by
  rw [parseChunks.eq_def, dif_pos h1, if_neg (by omega)]
  simp only []
  rw [if_pos (by omega)]

lemma parseChunks_step {bytes : List Nat} {i : Nat} (h1 : i < bytes.length)
    (h2 : i + 4 ≤ bytes.length)
    (h3 : i + 12 + u32_from_be_bytes ((bytes.drop i).take 4) ≤ bytes.length) :
    parseChunks bytes i =
      match Chunk.try_from
          ((bytes.drop i).take (12 + u32_from_be_bytes ((bytes.drop i).take 4))) with
      | .error e => .error e
      | .ok c =>
        match parseChunks bytes (i + 12 + u32_from_be_bytes ((bytes.drop i).take 4)) with
        | .error e => .error e
        | .ok rest => .ok (c :: rest) := by
  rw [parseChunks.eq_def, dif_pos h1, if_neg (by omega)]
  simp only []
  rw [if_neg (by omega)]

lemma parseChunks_ok_consumed (bytes : List Nat) :
    ∀ (m i : Nat) (cs : List Chunk), bytes.length - i ≤ m → i ≤ bytes.length →
      parseChunks bytes i = .ok cs →
      i + (cs.map (fun c => 12 + c.data.length)).sum = bytes.length := by
  intro m
  induction m with
  | zero =>
    intro i cs hm hi h
    rw [parseChunks_end (by omega)] at h
    injection h with hcs
    subst hcs
    simp
    omega
  | succ m ihm =>
    intro i cs hm hi h
    by_cases hlt : i < bytes.length
    · by_cases h4 : i + 4 ≤ bytes.length
      · by_cases hbound :
            i + 12 + u32_from_be_bytes ((bytes.drop i).take 4) ≤ bytes.length
        · rw [parseChunks_step hlt h4 hbound] at h
          split at h
          · exact absurd h (by simp)
          · rename_i c hc
            split at h
            · exact absurd h (by simp)
            · rename_i rest hrest
              injection h with hcs
              subst hcs
              obtain ⟨h12, hdl, hty, hlet, hval, hdata, hlen, hcrc⟩ :=
                Chunk.try_from_ok_inv hc
              have htt : ((bytes.drop i).take
                    (12 + u32_from_be_bytes ((bytes.drop i).take 4))).take 4
                  = (bytes.drop i).take 4 := by
                rw [List.take_take]
                congr 1
                omega
              have hclen : c.data.length
                  = u32_from_be_bytes ((bytes.drop i).take 4) := by
                rw [← hlen, hdl, htt]
              have hres := ihm (i + 12 + u32_from_be_bytes ((bytes.drop i).take 4))
                rest (by omega) (by omega) hrest
              simp only [List.map_cons, List.sum_cons]
              omega
        · rw [parseChunks_short2 hlt h4 (by omega)] at h
          exact absurd h (by simp)
      · rw [parseChunks_short1 hlt (by omega)] at h
        exact absurd h (by simp)
    · rw [parseChunks_end (by omega)] at h
      injection h with hcs
      subst hcs
      simp
      omega

lemma parseChunks_append (chunks : List Chunk) :
    ∀ pre : List Nat, (∀ c ∈ chunks, c.wf = true) →
      parseChunks (pre ++ (chunks.map Chunk.as_bytes).flatten) pre.length
        = .ok chunks := by
  induction chunks with
  | nil =>
    intro pre h
    exact parseChunks_end (by simp)
  | cons c cs ih =>
    intro pre h
    have hcwf := h c (List.mem_cons_self c cs)
    obtain ⟨hlet, hval, hlen, h32, hcrc⟩ := Chunk.wf_spec hcwf
    have hrestwf : ∀ x ∈ cs, x.wf = true :=
      fun x hx => h x (List.mem_cons_of_mem c hx)
    have hflat : ((c :: cs).map Chunk.as_bytes).flatten
        = c.as_bytes ++ (cs.map Chunk.as_bytes).flatten := by simp
    rw [hflat]
    set R := (cs.map Chunk.as_bytes).flatten with hR
    set B := pre ++ (c.as_bytes ++ R) with hB
    have hAlen : c.as_bytes.length = 12 + c.data.length := length_as_bytes c
    have hBlen : B.length = pre.length + ((12 + c.data.length) + R.length) := by
      simp [hB, hAlen]
    have hdropPre : B.drop pre.length = c.as_bytes ++ R := List.drop_left _ _
    have htake4 : (c.as_bytes ++ R).take 4 = u32_to_be_bytes c.data_length := by
      rw [as_bytes_assoc c, List.append_assoc]
      exact List.take_left' rfl
    have hdl : u32_from_be_bytes ((B.drop pre.length).take 4) = c.data_length := by
      rw [hdropPre, htake4, u32_from_be_to_be _ h32]
    have hslice : (B.drop pre.length).take
        (12 + u32_from_be_bytes ((B.drop pre.length).take 4)) = c.as_bytes := by
      rw [hdl, hdropPre]
      exact List.take_left' (by omega)
    have hstep := @parseChunks_step B pre.length
      (by rw [hBlen]; omega) (by rw [hBlen]; omega) (by rw [hBlen, hdl]; omega)
    rw [hstep, hslice, Chunk.try_from_wf hcwf]
    have hidx : pre.length + 12 + u32_from_be_bytes ((B.drop pre.length).take 4)
        = (pre ++ c.as_bytes).length := by
      rw [hdl]
      simp [hAlen]
      omega
    have hBeq : B = (pre ++ c.as_bytes) ++ R := by
      rw [hB, List.append_assoc]
    have hrec := ih (pre ++ c.as_bytes) hrestwf
    rw [← hBeq] at hrec
    rw [hidx, hrec]

/-- C5: a container built from well-formed records — each record's type
passes the letter check and `is_valid()`, its declared length equals the
payload length and fits in a `u32`, and its checksum is the CRC-32 of
type and payload — encodes to bytes that `Png::try_from` decodes back
into the same record sequence, in order and in every field. -/
theorem c5_png_round_trip (chunks : List Chunk)
    (h : ∀ c ∈ chunks, c.wf = true) :
    Png.try_from (Png.from_chunks chunks).as_bytes
      = .ok (Png.from_chunks chunks) := by
  have hbytes : (Png.from_chunks chunks).as_bytes
      = STANDARD_HEADER ++ (chunks.map Chunk.as_bytes).flatten := rfl
  have h8 : (STANDARD_HEADER ++ (chunks.map Chunk.as_bytes).flatten).take 8
      = STANDARD_HEADER := List.take_left' rfl
  rw [hbytes]
  unfold Png.try_from
  rw [if_neg (by simp [STANDARD_HEADER]), if_neg (by simp [h8])]
  have hparse := parseChunks_append chunks STANDARD_HEADER h
  have hlen8 : STANDARD_HEADER.length = 8 := rfl
  rw [hlen8] at hparse
  rw [hparse]
  rfl

/-- C5 witness: the one-record container holding the "RuST"/"test data"
record round-trips. -/
theorem c5_witness :
    Png.try_from (Png.from_chunks [test_chunk]).as_bytes
      = .ok (Png.from_chunks [test_chunk]) :=
  c5_png_round_trip [test_chunk] (by decide)

/-- C9: `Png::try_from` parses records in a loop starting at offset 8
(after the header check), and at each offset `i` the loop: returns with
the records collected so far when `i` reaches the end; fails TooShort
when fewer than 4 bytes remain for the length field; reads the 4-byte
big-endian length `dl` and fails TooShort when `i + 12 + dl` exceeds the
buffer size; otherwise delegates exactly `12 + dl` bytes to
`Chunk::try_from`, propagating any error, and advances to
`i + 12 + dl`.  A successful parse consumes the buffer exactly: the
frame sizes of the parsed records sum to the distance to the end. -/
theorem c9_parse_loop (bytes : List Nat) :
    (8 ≤ bytes.length → bytes.take 8 = STANDARD_HEADER →
      Png.try_from bytes
        = match parseChunks bytes 8 with
          | .error e => .error e
          | .ok chunks => .ok (Png.from_chunks chunks)) ∧
    (∀ i : Nat,
      (bytes.length ≤ i → parseChunks bytes i = .ok []) ∧
      (i < bytes.length → bytes.length < i + 4 →
        parseChunks bytes i = .error .tooShort) ∧
      (i < bytes.length → i + 4 ≤ bytes.length →
        bytes.length < i + 12 + u32_from_be_bytes ((bytes.drop i).take 4) →
        parseChunks bytes i = .error .tooShort) ∧
      (i < bytes.length → i + 4 ≤ bytes.length →
        i + 12 + u32_from_be_bytes ((bytes.drop i).take 4) ≤ bytes.length →
        parseChunks bytes i
          = match Chunk.try_from ((bytes.drop i).take
                (12 + u32_from_be_bytes ((bytes.drop i).take 4))) with
            | .error e => .error e
            | .ok c =>
              match parseChunks bytes
                  (i + 12 + u32_from_be_bytes ((bytes.drop i).take 4)) with
              | .error e => .error e
              | .ok rest => .ok (c :: rest))) ∧
    (∀ (i : Nat) (cs : List Chunk), i ≤ bytes.length →
      parseChunks bytes i = .ok cs →
      i + (cs.map (fun c => 12 + c.data.length)).sum = bytes.length) := by
  refine ⟨?_, fun i => ⟨fun h => parseChunks_end h,
    fun h1 h2 => parseChunks_short1 h1 h2,
    fun h1 h2 h3 => parseChunks_short2 h1 h2 h3,
    fun h1 h2 h3 => parseChunks_step h1 h2 h3⟩,
    fun i cs hi h =>
      parseChunks_ok_consumed bytes (bytes.length - i) i cs (by omega) hi h⟩
  intro h8 hhdr
  unfold Png.try_from
  rw [if_neg (by omega), if_neg (by simp [hhdr])]
  rfl

/-- C9 witness: the loop applied to concrete buffers — the bare header
parses to no records and consumes the buffer exactly; a header followed
by 2 stray bytes fails TooShort; a header followed by a full frame
reaches the delegation step. -/
theorem c9_witness :
    parseChunks STANDARD_HEADER 8 = .ok [] ∧
    parseChunks (STANDARD_HEADER ++ [0, 0]) 8 = .error .tooShort ∧
    (Png.try_from STANDARD_HEADER
      = match parseChunks STANDARD_HEADER 8 with
        | .error e => .error e
        | .ok chunks => .ok (Png.from_chunks chunks)) ∧
    8 + (([] : List Chunk).map (fun c => 12 + c.data.length)).sum
      = STANDARD_HEADER.length ∧
    (parseChunks (STANDARD_HEADER ++ test_frame) 8
      = match Chunk.try_from (((STANDARD_HEADER ++ test_frame).drop 8).take
            (12 + u32_from_be_bytes
              (((STANDARD_HEADER ++ test_frame).drop 8).take 4))) with
        | .error e => .error e
        | .ok c =>
          match parseChunks (STANDARD_HEADER ++ test_frame)
              (8 + 12 + u32_from_be_bytes
                (((STANDARD_HEADER ++ test_frame).drop 8).take 4)) with
          | .error e => .error e
          | .ok rest => .ok (c :: rest)) := by
  have h1 : parseChunks STANDARD_HEADER 8 = .ok [] :=
    ((c9_parse_loop STANDARD_HEADER).2.1 8).1 (by decide)
  refine ⟨h1,
    ((c9_parse_loop (STANDARD_HEADER ++ [0, 0])).2.1 8).2.1 (by decide) (by decide),
    (c9_parse_loop STANDARD_HEADER).1 (by decide) (by decide),
    (c9_parse_loop STANDARD_HEADER).2.2 8 [] (by decide) h1,
    ((c9_parse_loop (STANDARD_HEADER ++ test_frame)).2.1 8).2.2.2
      (by decide) (by decide) (by decide)⟩
